import Mathlib

/-!
Verification development for the document segmentation engine of
`lc-pair-translation` (`src/langchain_pairtranslation`): a shallow embedding of
`rowinfo.py` (spans, adjacency), `config.py` (split rules) and
`chunking/base.py` (chunks, merge/split passes, export), together with proofs
about the embedded operations.

Modelling conventions:
* Paragraph text is `List Char`; Python's slice `s[a:b]` (for non-negative
  indices) is `pySlice`.
* Machine integers are `Nat`/`Int`; Python `re` match objects are abstracted
  as `ReMatch` records (match span plus capture-group spans), and a compiled
  pattern as a function from source text to its list of matches, since the
  regex engine itself is external to the repository.
* Fallible Python code (pydantic validation errors, assertion errors,
  propagating exceptions from generators) is embedded in `Except String`.
-/

namespace LCPair

/-- Python slice `s[a:b]` for non-negative indices `a ≤ b` (clamped at the
list's length, empty when `a ≥ b`). -/
def pySlice (s : List Char) (a b : Nat) : List Char := (s.take b).drop a

/-- Characters stripped by Python `str.strip()` (ASCII whitespace). -/
def isPySpace (c : Char) : Bool :=
  c = ' ' || c = '\t' || c = '\n' || c = '\r' || c = '\x0b' || c = '\x0c'

/-- Python `str.strip()`: remove leading and trailing whitespace. -/
def pyStrip (s : List Char) : List Char :=
  ((s.dropWhile isPySpace).reverse.dropWhile isPySpace).reverse

/-- Python `haystack.index(needle)`: index of the first occurrence of
`needle` in `haystack`.  `str.index` raises when the needle is absent; the
repository only calls it with `needle = src.strip()`, which always occurs, so
the absent case (modelled as `0`) is unreachable. -/
def pyIndex (hay needle : List Char) : Nat :=
  match (List.range (hay.length + 1)).find? (fun i => needle.isPrefixOf (hay.drop i)) with
  | some i => i
  | none => 0

/-- Offsets of the matches of `NEWLINE_PATTERN = re.compile(r"\n|\r")`
(`rowinfo.py`): indices of every newline or carriage-return character. -/
def newlineBreaks (s : List Char) : List Nat :=
  (List.range s.length).filter (fun i => s.getD i ' ' = '\n' || s.getD i ' ' = '\r')

/-- `rowinfo.Adjacency`: classification of the relationship between spans. -/
inductive Adjacency
  | NONE
  | FORWARD
  | BACKWARD
  | OVERLAPPING
  | IDENTICAL
deriving DecidableEq, Repr

/-- `rowinfo.ParagraphSpan`: metadata defining a portion of a paragraph.
`char_range` is the half-open active range `[start, end)`.  The Python `end`
property is named `stop` here (`end` is a Lean keyword). -/
structure ParagraphSpan where
  src_index : Nat
  src_length : Nat
  src_breaks : List Nat
  char_range : Nat × Nat
deriving DecidableEq, Repr

instance : Inhabited ParagraphSpan := ⟨⟨0, 0, [], (0, 0)⟩⟩

/-- `ParagraphSpan.start` property. -/
def ParagraphSpan.start (s : ParagraphSpan) : Nat := s.char_range.1

/-- `ParagraphSpan.end` property (renamed: `end` is a Lean keyword). -/
def ParagraphSpan.stop (s : ParagraphSpan) : Nat := s.char_range.2

/-- `ParagraphSpan.length` property: `end - start`. -/
def ParagraphSpan.length (s : ParagraphSpan) : Nat := s.stop - s.start

/-- `ParagraphSpan.is_paragraph_start` property: `char_range[0] == 0`. -/
def ParagraphSpan.isParagraphStart (s : ParagraphSpan) : Bool := s.char_range.1 = 0

/-- `ParagraphSpan.is_paragraph_end` property: `char_range[1] == src_length`. -/
def ParagraphSpan.isParagraphEnd (s : ParagraphSpan) : Bool := s.char_range.2 = s.src_length

/-- Validated construction of a `ParagraphSpan`.  Pydantic first validates the
field types: both components of `char_range` are `UnsignedInt`
(`Annotated[int, Ge(0)]`, `utils/unsigned_int.py`), so a negative component is
a `ValidationError`; then the `check_col_range` field validator rejects
`start >= end`.  No bound against `src_length` is checked anywhere. -/
def ParagraphSpan.mk? (src_index src_length : Nat) (src_breaks : List Nat)
    (char_range : Int × Int) : Except String ParagraphSpan :=
  if char_range.1 < 0 || char_range.2 < 0 then
    Except.error "Input should be greater than or equal to 0"
  else if char_range.1 ≥ char_range.2 then
    Except.error "The span start must be less than the end."
  else
    Except.ok ⟨src_index, src_length, src_breaks, (char_range.1.toNat, char_range.2.toNat)⟩

/-- `ParagraphSpan._ranges_overlap`. -/
def rangesOverlap (a b : Nat × Nat) : Bool := a.1 < b.2 && b.1 < a.2

/-- `ParagraphSpan._range_includes`. -/
def rangeIncludes (outer inner : Nat × Nat) : Bool := outer.1 ≤ inner.1 && outer.2 ≥ inner.2

/-- `ParagraphSpan.eval_adjacency`.  The same-paragraph checks run first; if
none of them returns, the cross-paragraph checks run (they require an index
difference of exactly 1, computed over ℤ as in Python). -/
def ParagraphSpan.eval_adjacency (a b : ParagraphSpan) : Adjacency :=
  if a.src_index = b.src_index ∧ a.stop = b.start then Adjacency.FORWARD
  else if a.src_index = b.src_index ∧ a.start = b.stop then Adjacency.BACKWARD
  else if a.src_index = b.src_index ∧ a.char_range = b.char_range then Adjacency.IDENTICAL
  else if a.src_index = b.src_index ∧ rangesOverlap a.char_range b.char_range then
    Adjacency.OVERLAPPING
  else if (b.src_index : Int) - (a.src_index : Int) = 1 ∧ a.isParagraphEnd ∧ b.isParagraphStart
    then Adjacency.FORWARD
  else if (a.src_index : Int) - (b.src_index : Int) = 1 ∧ a.isParagraphStart ∧ b.isParagraphEnd
    then Adjacency.BACKWARD
  else Adjacency.NONE

/-- `ParagraphSpan.to_text`: asserts that the supplied row has exactly
`src_length` characters (an `AssertionError` propagates on mismatch), then
slices the row to the active range. -/
def ParagraphSpan.to_text (s : ParagraphSpan) (src_row : List Char) : Except String (List Char) :=
  if src_row.length = s.src_length then Except.ok (pySlice src_row s.start s.stop)
  else Except.error "Row length mismatch"

/-- `ParagraphSpan.from_single_paragraph`: the span covers the whole paragraph
unless stripping shrinks it, in which case the range is the trimmed content
located by `src_text.index(trimmed_text)`.  The pydantic validation of the
result (`start < end`) can only fail for all-whitespace text, which every
caller filters out first. -/
def ParagraphSpan.from_single_paragraph (src_index : Nat) (src_text : List Char) : ParagraphSpan :=
  let src_length := src_text.length
  let src_breaks := newlineBreaks src_text
  let trimmed := pyStrip src_text
  if trimmed.length = src_length then
    ⟨src_index, src_length, src_breaks, (0, src_length)⟩
  else
    let s := pyIndex src_text trimmed
    ⟨src_index, src_length, src_breaks, (s, s + trimmed.length)⟩

/-! ## Split rules (`config.py`) and `ParagraphSpan.splititer` -/

/-- Monadic map over a list in `Except`, modelling Python iteration that can
raise: elements are processed left to right and the first raised exception
propagates, discarding later elements. -/
def mapE {α β : Type} (f : α → Except String β) : List α → Except String (List β)
  | [] => Except.ok []
  | x :: xs => do
    let y ← f x
    let ys ← mapE f xs
    pure (y :: ys)

/-- Abstraction of a Python `re.Match`: the overall match span plus the span
of each capture group (`none` when the group did not participate). -/
structure ReMatch where
  mspan : Nat × Nat
  groups : List (Option (Nat × Nat))
deriving DecidableEq, Repr

/-- Python truthiness of one entry of `match.groups()`: the group value is a
string (`None` when the group did not participate), and a string is truthy
exactly when it is non-empty. -/
def groupTruthy : Option (Nat × Nat) → Bool
  | some g => g.1 < g.2
  | none => false

/-- `any(match.groups())`: some capture group participated and matched a
non-empty substring. -/
def ReMatch.anyGroups (m : ReMatch) : Bool := m.groups.any groupTruthy

/-- `match.end(1)`: end of the first capture group, `-1` when the group did
not participate (Python returns `-1` for a non-participating group). -/
def ReMatch.endg1 (m : ReMatch) : Int :=
  match m.groups.head? with
  | some (some g) => (g.2 : Int)
  | _ => -1

/-- `config.SplitBehavior` (a `Flag`): `INCLUDE_BOTH = INCLUDE_LEFT | INCLUDE_RIGHT`. -/
inductive SplitBehavior
  | EXCLUDE
  | INCLUDE_LEFT
  | INCLUDE_RIGHT
  | INCLUDE_BOTH
deriving DecidableEq, Repr

/-- `SplitBehavior.INCLUDE_LEFT in b` (flag membership). -/
def SplitBehavior.hasLeft : SplitBehavior → Bool
  | .INCLUDE_LEFT => true
  | .INCLUDE_BOTH => true
  | _ => false

/-- `SplitBehavior.INCLUDE_RIGHT in b` (flag membership). -/
def SplitBehavior.hasRight : SplitBehavior → Bool
  | .INCLUDE_RIGHT => true
  | .INCLUDE_BOTH => true
  | _ => false

/-- `config.SplitPattern`: a named pattern.  The compiled regex is external
(`re`), so it is abstracted as the function `matcher` giving, for a source
text, the matches `re.finditer(pattern, text)` would yield (in order,
non-overlapping, left to right).  `behavior` is the cached inclusion policy the
repository derives once from the pattern source (`CAPTURE_LEFT`/`CAPTURE_RIGHT`
anchoring of capture groups). -/
structure SplitPattern where
  name : String
  behavior : SplitBehavior
  matcher : List Char → List ReMatch

/-- The split boundaries `ParagraphSpan.splititer` computes for one match:
initialized to the raw match span; when `any(match.groups())` is truthy,
`INCLUDE_LEFT` first moves the left boundary to `match.end(1)`, and
`INCLUDE_RIGHT` then executes `match.start(-1)` — which in Python raises
`IndexError: no such group` (negative group indices are invalid), so
right-side narrowing never completes and the exception propagates. -/
def splitBounds (b : SplitBehavior) (m : ReMatch) : Except String (Int × Int) :=
  if m.anyGroups then
    if b.hasRight then Except.error "no such group"
    else Except.ok ((if b.hasLeft then m.endg1 else (m.mspan.1 : Int)), (m.mspan.2 : Int))
  else Except.ok ((m.mspan.1 : Int), (m.mspan.2 : Int))

/-- `ParagraphSpan.splititer`: for every pattern match contained in the active
range, yield the pair of sub-spans `[start, split_start)` / `[split_end, end)`.
Enumerating the generator computes boundaries and constructs the spans one by
one, so the `IndexError` from `match.start(-1)` or a pydantic validation
error from a degenerate sub-span propagates to the consumer. -/
def ParagraphSpan.splititer (sp : ParagraphSpan) (src_text : List Char)
    (splitter : SplitPattern) : Except String (List (ParagraphSpan × ParagraphSpan)) :=
  let ms := (splitter.matcher src_text).filter
    (fun m => rangeIncludes sp.char_range m.mspan)
  mapE (fun m => do
    let b ← splitBounds splitter.behavior m
    let left ← ParagraphSpan.mk? sp.src_index sp.src_length sp.src_breaks
      ((sp.char_range.1 : Int), b.1)
    let right ← ParagraphSpan.mk? sp.src_index sp.src_length sp.src_breaks
      (b.2, (sp.char_range.2 : Int))
    pure (left, right)) ms

/-! ## Chunks (`chunking/base.py`) -/

/-- `translation_state.TranslationState`. -/
inductive TranslationState
  | UNTRANSLATED
  | LLM_TRANSLATED
  | USER_TRANSLATED
  | USER_EDITED
deriving DecidableEq, Repr

/-- `chunking.base.DocumentChunk`: a list of spans plus chunk-level state and
warnings (pydantic defaults: `UNTRANSLATED`, `[]`). -/
structure DocumentChunk where
  paragraph_metadata : List ParagraphSpan
  state : TranslationState := TranslationState.UNTRANSLATED
  warnings : List String := []
deriving DecidableEq, Repr

instance : Inhabited DocumentChunk := ⟨⟨[], TranslationState.UNTRANSLATED, []⟩⟩

/-- `DocumentChunk.start` property: the first span.  Python indexes
`paragraph_metadata[0]` (an `IndexError` on an empty chunk); chunks are
non-empty by construction, and the default span stands in for that
unreachable error. -/
def DocumentChunk.startSpan (ch : DocumentChunk) : ParagraphSpan :=
  ch.paragraph_metadata.headD default

/-- `DocumentChunk.end` property: the last span (`paragraph_metadata[-1]`). -/
def DocumentChunk.endSpan (ch : DocumentChunk) : ParagraphSpan :=
  ch.paragraph_metadata.getLastD default

/-- `DocumentChunk.__len__`: the sum of the span lengths. -/
def DocumentChunk.len (ch : DocumentChunk) : Nat :=
  (ch.paragraph_metadata.map ParagraphSpan.length).sum

/-- `DocumentChunk.to_text`: joins the raw slices of each span's paragraph
with a newline.  Note this path slices `row_getter(...)` directly, without
`ParagraphSpan.to_text`'s length assertion. -/
def DocumentChunk.to_text (ch : DocumentChunk) (row_getter : Nat → List Char) : List Char :=
  List.intercalate ['\n'] (ch.paragraph_metadata.map
    (fun md => pySlice (row_getter md.src_index) md.start md.stop))

/-- `DocumentChunk.eval_adjacency`.  In the source, the result of the first
classification is bound with a walrus (`if forward_adjacency := ...:`); a
plain-`Enum` member is always truthy in Python (no `__bool__` override), so
the first classification is always returned and the `elif` backward branch
and final `return Adjacency.NONE` are dead code. -/
def DocumentChunk.eval_adjacency (a other : DocumentChunk) : Adjacency :=
  a.endSpan.eval_adjacency other.startSpan

/-- `DocumentChunk.from_single_paragraph`: raises on an all-whitespace row,
otherwise wraps the single paragraph span. -/
def DocumentChunk.from_single_paragraph (index : Nat) (text : List Char) :
    Except String DocumentChunk :=
  if pyStrip text = [] then
    Except.error "Cannot create a DocumentChunk from an empty row."
  else
    Except.ok { paragraph_metadata := [ParagraphSpan.from_single_paragraph index text]
                state := TranslationState.UNTRANSLATED }

/-- `chunking.base.BaseDocumentChunks`. -/
structure BaseDocumentChunks where
  file_path : Option String := none
  collection : List DocumentChunk
deriving DecidableEq, Repr

/-- All spans of the collection in traversal order (chunk by chunk, spans in
chunk order). -/
def BaseDocumentChunks.flatSpans (c : BaseDocumentChunks) : List ParagraphSpan :=
  (c.collection.map DocumentChunk.paragraph_metadata).flatten

/-- `BaseDocumentChunks.from_paragraphs`: one chunk per non-blank paragraph,
keeping the original `enumerate` index.  The `from_single_paragraph` error is
unreachable after the blank filter, so its `ok` value is extracted. -/
def BaseDocumentChunks.from_paragraphs (paragraphs : List (List Char)) : BaseDocumentChunks :=
  { collection := (paragraphs.enum.filter (fun p => pyStrip p.2 ≠ [])).filterMap
      (fun p => (DocumentChunk.from_single_paragraph p.1 p.2).toOption) }

/-- The loop body of `BaseDocumentChunks.merge_pass`: keep a running chunk;
absorb the next chunk's spans into it (keeping the running chunk's `state`
and `warnings`) when the chunks are FORWARD-adjacent and the combined length
fits, otherwise flush the running chunk. -/
def mergeLoop (max_length : Nat) (current : DocumentChunk) :
    List DocumentChunk → List DocumentChunk
  | [] => [current]
  | chunk :: rest =>
    if current.eval_adjacency chunk = Adjacency.FORWARD ∧
        current.len + chunk.len ≤ max_length then
      mergeLoop max_length
        { current with
            paragraph_metadata := current.paragraph_metadata ++ chunk.paragraph_metadata }
        rest
    else current :: mergeLoop max_length chunk rest

/-- `BaseDocumentChunks.merge_pass`: no-op on empty or singleton collections,
otherwise the left-to-right coalescing sweep. -/
def BaseDocumentChunks.merge_pass (c : BaseDocumentChunks) (max_length : Nat) :
    BaseDocumentChunks :=
  match c.collection with
  | [] => c
  | [_] => c
  | first :: rest => { c with collection := mergeLoop max_length first rest }

/-- The `for splitter in splitters` search of `_split_chunk`: the first
splitter with a non-empty list of potential splits wins, and the last
(rightmost) potential split is chosen.  A potential split is a pair whose
left sub-span keeps the current chunk within `max_length`
(`pair[0].end - row.start + next_chunk_length <= max_length`). -/
def findSplit (row : ParagraphSpan) (row_text : List Char) (accLen max_length : Nat) :
    List SplitPattern → Except String (Option (ParagraphSpan × ParagraphSpan))
  | [] => Except.ok none
  | splitter :: rest => do
    let pairs ← row.splititer row_text splitter
    match (pairs.filter (fun pr => pr.1.stop - row.start + accLen ≤ max_length)).getLast? with
    | some pr => pure (some pr)
    | none => findSplit row row_text accLen max_length rest

/-- The `while chunk_rows:` loop of `BaseDocumentChunks._split_chunk`,
processing the span queue with an accumulator (`next_chunk_metadata`,
`next_chunk_length`) and the output list (`split_chunks`).  The Python loop
can fail to terminate for pathological splitters (the right sub-span is
pushed back onto the queue and need not shrink), so the embedding carries
explicit fuel; running out of fuel is an error, matching the absence of any
result from a non-terminating run. -/
def splitLoop (row_getter : Nat → List Char) (max_length : Nat)
    (splitters : List SplitPattern) :
    Nat → List ParagraphSpan → List ParagraphSpan → Nat → List DocumentChunk →
    Except String (List DocumentChunk)
  | 0, _, _, _, _ => Except.error "fuel exhausted"
  | _ + 1, [], acc, _, out =>
      Except.ok (out ++ if acc.isEmpty then [] else [{ paragraph_metadata := acc }])
  | fuel + 1, row :: rows, acc, accLen, out =>
      if accLen + row.length ≤ max_length then
        splitLoop row_getter max_length splitters fuel rows (acc ++ [row])
          (accLen + row.length) out
      else do
        let row_text := row_getter row.src_index
        match ← findSplit row row_text accLen max_length splitters with
        | some (lhs, rhs) =>
            splitLoop row_getter max_length splitters fuel (rhs :: rows) [] 0
              (out ++ [{ paragraph_metadata := acc ++ [lhs] }])
        | none =>
            splitLoop row_getter max_length splitters fuel rows acc accLen
              (out ++ [{ paragraph_metadata := [row]
                         warnings := ["Max length (" ++ toString max_length ++ ") exceeded"] }])

/-- `BaseDocumentChunks._split_chunk`: chunks within the ceiling pass through
unchanged; oversized chunks are decomposed by `splitLoop`. -/
def splitChunk (fuel : Nat) (chunk : DocumentChunk) (row_getter : Nat → List Char)
    (max_length : Nat) (splitters : List SplitPattern) :
    Except String (List DocumentChunk) :=
  if chunk.len ≤ max_length then Except.ok [chunk]
  else splitLoop row_getter max_length splitters fuel chunk.paragraph_metadata [] 0 []

/-- `BaseDocumentChunks.split_pass`: replaces the collection with the
concatenation of `_split_chunk` applied to every chunk, in order; an
exception raised while splitting propagates to the caller. -/
def BaseDocumentChunks.split_pass (c : BaseDocumentChunks) (fuel : Nat)
    (row_getter : Nat → List Char) (max_length : Nat) (splitters : List SplitPattern) :
    Except String BaseDocumentChunks :=
  if c.collection.isEmpty then Except.ok c
  else do
    let css ← mapE (fun ch => splitChunk fuel ch row_getter max_length splitters) c.collection
    pure { c with collection := css.flatten }

/-! ## Export (`to_paragraph_exports_iter`) -/

/-- The inner loop of `to_paragraph_exports_iter` for one paragraph: walk the
override spans in bucket order, copying the source text between the insertion
point and each override's start, then the override's rendered text
(`override.to_text(src_text)`, which asserts the length), then the trailing
source text. -/
def exportLoop (src_text : List Char) :
    List ParagraphSpan → Nat → List Char → Except String (List Char)
  | [], insertion_point, acc =>
      Except.ok (acc ++ if insertion_point < src_text.length then
        pySlice src_text insertion_point src_text.length else [])
  | ov :: rest, insertion_point, acc => do
      let gap := if ov.start > insertion_point then
        pySlice src_text insertion_point ov.start else []
      let t ← ov.to_text src_text
      exportLoop src_text rest ov.stop (acc ++ gap ++ t)

/-- `BaseDocumentChunks.to_paragraph_exports_iter`: bucket every span by its
`src_index` preserving traversal order (the `override_dict` accumulation),
then reconstruct each paragraph from `0` to `total_rows - 1`. -/
def BaseDocumentChunks.to_paragraph_exports_iter (c : BaseDocumentChunks)
    (src_getter : Nat → List Char) (total_rows : Nat) :
    Except String (List (List Char)) :=
  mapE (fun pindex =>
    exportLoop (src_getter pindex)
      (c.flatSpans.filter (fun s => s.src_index = pindex)) 0 [])
    (List.range total_rows)

/-! ## Concrete split rules

The repository's default sentence-boundary rule
(`config.ChunkingSettings.split_patterns`) is
`SplitPattern(name="End of sentence (en/jp)", pattern_src=r'([.!?。！？…]+)[^A-z0-9."]')`.
Its derived policy is `INCLUDE_LEFT`: `CAPTURE_LEFT = ^\(.*?\)` matches the
leading `([.!?。！？…]+)` group, while `CAPTURE_RIGHT = .*?\(.*?\)$` fails
(the pattern source ends with `]`).  The matcher below implements
`re.finditer` for exactly this pattern: a maximal greedy run of
sentence-ending punctuation (backtracking the `+` as needed) followed by one
character outside `A-z`, `0-9`, `.`, `"`; matches are found left to right and
scanning resumes at each match's end. -/

/-- Membership in the character class `[.!?。！？…]`. -/
def isSentencePunct (c : Char) : Bool :=
  c = '.' || c = '!' || c = '?' || c = '。' || c = '！' || c = '？' || c = '…'

/-- Membership in the negated class `[^A-z0-9."]` (`A-z` is the codepoint
range 65–122). -/
def isSentenceFollow (c : Char) : Bool :=
  !(('A'.toNat ≤ c.toNat && c.toNat ≤ 'z'.toNat) ||
    ('0'.toNat ≤ c.toNat && c.toNat ≤ '9'.toNat) || c = '.' || c = '"')

/-- Backtracking of the greedy `+`: the largest `j ≤ run` such that the
character after `j` punctuation characters is in the follow class. -/
def sentenceBacktrack (s : List Char) (i : Nat) : Nat → Option Nat
  | 0 => none
  | j + 1 =>
    if i + (j + 1) < s.length && isSentenceFollow (s.getD (i + (j + 1)) ' ') then
      some (j + 1)
    else sentenceBacktrack s i j

/-- Left-to-right scan of `re.finditer` for the sentence rule; the fuel is the
remaining number of start positions to try. -/
def sentenceScan (s : List Char) : Nat → Nat → List ReMatch
  | 0, _ => []
  | fuel + 1, i =>
    if i ≥ s.length then []
    else
      let run := ((s.drop i).takeWhile isSentencePunct).length
      if run = 0 then sentenceScan s fuel (i + 1)
      else
        match sentenceBacktrack s i run with
        | some j => ⟨(i, i + j + 1), [some (i, i + j)]⟩ :: sentenceScan s fuel (i + j + 1)
        | none => sentenceScan s fuel (i + 1)

/-- All matches of the sentence-boundary pattern in a text. -/
def sentencePatternMatches (s : List Char) : List ReMatch :=
  sentenceScan s (s.length + 1) 0

/-- The default sentence-boundary split rule of `config.ChunkingSettings`. -/
def sentenceSplitRule : SplitPattern :=
  ⟨"End of sentence (en/jp)", SplitBehavior.INCLUDE_LEFT, sentencePatternMatches⟩

/-- `re.finditer` for a literal pattern: non-overlapping occurrences of
`pat`, found left to right. -/
def literalScan (pat s : List Char) : Nat → Nat → List ReMatch
  | 0, _ => []
  | fuel + 1, i =>
    if i + pat.length > s.length then []
    else if pat.isPrefixOf (s.drop i) then
      ⟨(i, i + pat.length), []⟩ :: literalScan pat s fuel (i + pat.length)
    else literalScan pat s fuel (i + 1)

/-- All matches of a literal pattern (no capture groups, as for a pattern
source that is just literal text). -/
def literalMatches (pat s : List Char) : List ReMatch :=
  literalScan pat s (s.length + 1) 0

/-! ## Adjacency symmetry -/

/-- Swap `FORWARD` and `BACKWARD`, fixing the symmetric classifications. -/
def Adjacency.mirror : Adjacency → Adjacency
  | .FORWARD => .BACKWARD
  | .BACKWARD => .FORWARD
  | a => a

/-- Well-formedness of a span: a non-empty active range, the invariant
`check_col_range` establishes at construction. -/
def SpanWF (s : ParagraphSpan) : Prop := s.char_range.1 < s.char_range.2

instance (s : ParagraphSpan) : Decidable (SpanWF s) :=
  inferInstanceAs (Decidable (_ < _))

set_option maxHeartbeats 1000000 in
/-- For well-formed spans, swapping the arguments of `eval_adjacency` mirrors
the classification. -/
theorem eval_adjacency_mirror (a b : ParagraphSpan) (ha : SpanWF a) (hb : SpanWF b) :
    b.eval_adjacency a = (a.eval_adjacency b).mirror := by
  rcases a with ⟨ia, La, bra, sa, ea⟩
  rcases b with ⟨ib, Lb, brb, sb, eb⟩
  simp only [SpanWF] at ha hb
  simp only [ParagraphSpan.eval_adjacency, ParagraphSpan.start, ParagraphSpan.stop,
    ParagraphSpan.isParagraphStart, ParagraphSpan.isParagraphEnd, rangesOverlap,
    Prod.mk.injEq, Bool.and_eq_true, decide_eq_true_eq] at *
  split_ifs <;> simp only [Adjacency.mirror] <;> first | rfl | omega

/-- A well-formed span is `IDENTICAL` to itself. -/
theorem eval_adjacency_self (a : ParagraphSpan) (ha : SpanWF a) :
    a.eval_adjacency a = Adjacency.IDENTICAL := by
  rcases a with ⟨ia, La, bra, sa, ea⟩
  simp only [SpanWF] at ha
  simp only [ParagraphSpan.eval_adjacency, ParagraphSpan.start, ParagraphSpan.stop,
    ParagraphSpan.isParagraphStart, ParagraphSpan.isParagraphEnd, rangesOverlap,
    Prod.mk.injEq, Bool.and_eq_true, decide_eq_true_eq]
  split_ifs <;> first | rfl | (exfalso; first | omega | simp_all)

/-- C5: for all well-formed spans `a` and `b`, `eval_adjacency(a, b) = FORWARD`
iff `eval_adjacency(b, a) = BACKWARD` (and vice versa); `OVERLAPPING`,
`IDENTICAL` and `NONE` are symmetric; and `eval_adjacency(a, a) = IDENTICAL`. -/
theorem C5_adjacency_symmetry (a b : ParagraphSpan) (ha : SpanWF a) (hb : SpanWF b) :
    (a.eval_adjacency b = Adjacency.FORWARD ↔ b.eval_adjacency a = Adjacency.BACKWARD) ∧
    (a.eval_adjacency b = Adjacency.BACKWARD ↔ b.eval_adjacency a = Adjacency.FORWARD) ∧
    (a.eval_adjacency b = Adjacency.OVERLAPPING ↔ b.eval_adjacency a = Adjacency.OVERLAPPING) ∧
    (a.eval_adjacency b = Adjacency.IDENTICAL ↔ b.eval_adjacency a = Adjacency.IDENTICAL) ∧
    (a.eval_adjacency b = Adjacency.NONE ↔ b.eval_adjacency a = Adjacency.NONE) ∧
    a.eval_adjacency a = Adjacency.IDENTICAL := by
  have hm := eval_adjacency_mirror a b ha hb
  rw [hm]
  refine ⟨?_, ?_, ?_, ?_, ?_, eval_adjacency_self a ha⟩ <;>
    cases a.eval_adjacency b <;> simp [Adjacency.mirror]

/-- C5 witness: the symmetry laws at two concrete well-formed spans. -/
theorem C5_adjacency_symmetry_witness :
    (ParagraphSpan.eval_adjacency ⟨0, 5, [], (0, 2)⟩ ⟨0, 5, [], (2, 4)⟩ = Adjacency.FORWARD ↔
      ParagraphSpan.eval_adjacency ⟨0, 5, [], (2, 4)⟩ ⟨0, 5, [], (0, 2)⟩ = Adjacency.BACKWARD) ∧
    (ParagraphSpan.eval_adjacency ⟨0, 5, [], (0, 2)⟩ ⟨0, 5, [], (2, 4)⟩ = Adjacency.BACKWARD ↔
      ParagraphSpan.eval_adjacency ⟨0, 5, [], (2, 4)⟩ ⟨0, 5, [], (0, 2)⟩ = Adjacency.FORWARD) ∧
    (ParagraphSpan.eval_adjacency ⟨0, 5, [], (0, 2)⟩ ⟨0, 5, [], (2, 4)⟩ = Adjacency.OVERLAPPING ↔
      ParagraphSpan.eval_adjacency ⟨0, 5, [], (2, 4)⟩ ⟨0, 5, [], (0, 2)⟩ = Adjacency.OVERLAPPING) ∧
    (ParagraphSpan.eval_adjacency ⟨0, 5, [], (0, 2)⟩ ⟨0, 5, [], (2, 4)⟩ = Adjacency.IDENTICAL ↔
      ParagraphSpan.eval_adjacency ⟨0, 5, [], (2, 4)⟩ ⟨0, 5, [], (0, 2)⟩ = Adjacency.IDENTICAL) ∧
    (ParagraphSpan.eval_adjacency ⟨0, 5, [], (0, 2)⟩ ⟨0, 5, [], (2, 4)⟩ = Adjacency.NONE ↔
      ParagraphSpan.eval_adjacency ⟨0, 5, [], (2, 4)⟩ ⟨0, 5, [], (0, 2)⟩ = Adjacency.NONE) ∧
    ParagraphSpan.eval_adjacency ⟨0, 5, [], (0, 2)⟩ ⟨0, 5, [], (0, 2)⟩ = Adjacency.IDENTICAL :=
  C5_adjacency_symmetry ⟨0, 5, [], (0, 2)⟩ ⟨0, 5, [], (2, 4)⟩ (by decide) (by decide)

/-! ## Span construction validation (C3) -/

/-- C3 counterexample: the claim says a span with `end > paragraph_length`
is rejected at creation, but `check_col_range` only checks `start < end`;
construction with `src_length = 5` and `char_range = (0, 10)` succeeds and the
resulting span has `end = 10 > 5 = src_length`. -/
theorem C3_counterexample :
    ParagraphSpan.mk? 0 5 [] (0, 10) =
      Except.ok { src_index := 0, src_length := 5, src_breaks := [], char_range := (0, 10) } ∧
    ({ src_index := 0, src_length := 5, src_breaks := [], char_range := (0, 10) } :
      ParagraphSpan).src_length <
      ({ src_index := 0, src_length := 5, src_breaks := [], char_range := (0, 10) } :
        ParagraphSpan).stop := by
  exact ⟨rfl, by decide⟩

/-- C3 (amended): constructing a `ParagraphSpan` succeeds exactly when both
components of `char_range` are non-negative and `start < end`; the successful
span stores exactly the requested fields.  No upper bound against
`src_length` is validated, so spans with `end > src_length` are obtainable. -/
theorem C3_span_validation (src_index src_length : Nat) (src_breaks : List Nat)
    (rng : Int × Int) :
    ((∃ s, ParagraphSpan.mk? src_index src_length src_breaks rng = Except.ok s) ↔
      0 ≤ rng.1 ∧ rng.1 < rng.2) ∧
    (∀ s, ParagraphSpan.mk? src_index src_length src_breaks rng = Except.ok s →
      (s.start : Int) = rng.1 ∧ (s.stop : Int) = rng.2 ∧
      s.src_index = src_index ∧ s.src_length = src_length ∧ s.src_breaks = src_breaks) := by
  unfold ParagraphSpan.mk?
  split_ifs with h1 h2
  · simp only [Bool.or_eq_true, decide_eq_true_eq] at h1
    constructor
    · constructor
      · rintro ⟨s, hs⟩; exact absurd hs (by simp)
      · rintro ⟨hge, hlt⟩; omega
    · intro s hs; exact absurd hs (by simp)
  · simp only [Bool.or_eq_true, decide_eq_true_eq, not_or, not_lt] at h1
    constructor
    · constructor
      · rintro ⟨s, hs⟩; exact absurd hs (by simp)
      · rintro ⟨hge, hlt⟩; omega
    · intro s hs; exact absurd hs (by simp)
  · simp only [Bool.or_eq_true, decide_eq_true_eq, not_or, not_lt] at h1
    constructor
    · exact ⟨fun _ => ⟨h1.1, by omega⟩, fun _ => ⟨_, rfl⟩⟩
    · intro s hs
      obtain rfl : _ = s := by injection hs
      refine ⟨?_, ?_, rfl, rfl, rfl⟩
      · simpa [ParagraphSpan.start] using Int.toNat_of_nonneg h1.1
      · simpa [ParagraphSpan.stop] using Int.toNat_of_nonneg (by omega : (0:Int) ≤ rng.2)

/-- C3 witness: the validation characterization evaluated at a concrete
accepted range. -/
theorem C3_span_validation_witness :
    (∃ s, ParagraphSpan.mk? 0 5 [] (1, 4) = Except.ok s) ↔ (0:Int) ≤ 1 ∧ (1:Int) < 4 :=
  (C3_span_validation 0 5 [] (1, 4)).1

/-! ## Rendering spans to text (C8) -/

/-- C8 counterexample: the claim extends the fail-loud guarantee to every
rendering path including chunk-level rendering, but `DocumentChunk.to_text`
slices the accessor text directly without the length assertion: for a span
recorded against a paragraph of length 5, an accessor now returning `"ab"`
makes `ParagraphSpan.to_text` raise while `DocumentChunk.to_text` silently
returns the mis-sliced `"ab"`. -/
theorem C8_counterexample :
    ParagraphSpan.to_text ⟨0, 5, [], (0, 5)⟩ "ab".toList =
      Except.error "Row length mismatch" ∧
    DocumentChunk.to_text ⟨[⟨0, 5, [], (0, 5)⟩], TranslationState.UNTRANSLATED, []⟩
      (fun _ => "ab".toList) = "ab".toList :=
  ⟨rfl, rfl⟩

/-- C8 (amended): `ParagraphSpan.to_text` raises exactly when the supplied
text's length differs from the recorded `src_length`, and otherwise returns
exactly the slice `t[start:end]`; `DocumentChunk.to_text` performs no such
check and slices whatever the accessor returns. -/
theorem C8_to_text_mismatch (s : ParagraphSpan) (t : List Char) :
    (∀ r, s.to_text t = Except.ok r → t.length = s.src_length ∧ r = pySlice t s.start s.stop) ∧
    (t.length = s.src_length → s.to_text t = Except.ok (pySlice t s.start s.stop)) ∧
    (t.length ≠ s.src_length → s.to_text t = Except.error "Row length mismatch") := by
  unfold ParagraphSpan.to_text
  split_ifs with h
  · exact ⟨fun r hr => ⟨h, (by injection hr with h2; exact h2.symm)⟩, fun _ => rfl,
      fun hne => absurd h hne⟩
  · exact ⟨fun r hr => (by cases hr), fun heq => absurd heq h, fun _ => rfl⟩

/-- C8 witness: a matching-length rendering computed through the
characterization theorem. -/
theorem C8_to_text_mismatch_witness :
    ParagraphSpan.to_text ⟨0, 5, [], (0, 2)⟩ "hello".toList =
      Except.ok (pySlice "hello".toList 0 2) :=
  (C8_to_text_mismatch ⟨0, 5, [], (0, 2)⟩ "hello".toList).2.1 rfl

/-! ## Degenerate splits raise (C10) -/

/-- C10: `splititer` is not total: with an `EXCLUDE` rule matching `"ab"` at
the very start of the span's active range (and one matching `"ef"` at its very
end), the derived left (resp. right) sub-span would be empty, and enumerating
`splititer` raises the `check_col_range` construction error instead of
yielding a pair; `split_pass` propagates the same exception. -/
theorem C10_degenerate_split_raises :
    ParagraphSpan.splititer ⟨0, 6, [], (0, 6)⟩ "abcdef".toList
      ⟨"ab", SplitBehavior.EXCLUDE, literalMatches "ab".toList⟩ =
      Except.error "The span start must be less than the end." ∧
    ParagraphSpan.splititer ⟨0, 6, [], (0, 6)⟩ "abcdef".toList
      ⟨"ef", SplitBehavior.EXCLUDE, literalMatches "ef".toList⟩ =
      Except.error "The span start must be less than the end." ∧
    (BaseDocumentChunks.from_paragraphs ["abcdef".toList]).split_pass 10
      (fun _ => "abcdef".toList) 5 [⟨"ab", SplitBehavior.EXCLUDE, literalMatches "ab".toList⟩] =
      Except.error "The span start must be less than the end." :=
  ⟨rfl, rfl, rfl⟩

/-! ## Basic facts about `mapE`, `mk?` and the split search -/

/-- A successful `Except` bind decomposes into a successful first component
followed by a successful continuation. -/
theorem bindE_ok {α β : Type} {e : Except String α} {f : α → Except String β} {b : β} :
    (e >>= f) = Except.ok b ↔ ∃ a, e = Except.ok a ∧ f a = Except.ok b := by
  cases e <;> simp [Bind.bind, Except.bind]

/-- `pure` in the `Except` monad is `Except.ok`. -/
theorem pureE_eq {α : Type} (a : α) : (pure a : Except String α) = Except.ok a := rfl

/-- A successful `mapE` on a cons decomposes pointwise. -/
theorem mapE_cons_ok {α β : Type} {f : α → Except String β} {x : α} {xs : List α} {ys : List β}
    (h : mapE f (x :: xs) = Except.ok ys) :
    ∃ y ys2, f x = Except.ok y ∧ mapE f xs = Except.ok ys2 ∧ ys = y :: ys2 := by
  simp only [mapE] at h
  rw [bindE_ok] at h
  obtain ⟨y, hy, h⟩ := h
  rw [bindE_ok] at h
  obtain ⟨ys2, hys2, h⟩ := h
  rw [pureE_eq] at h
  injection h with h
  exact ⟨y, ys2, hy, hys2, h.symm⟩

/-- Every element of a successful `mapE` comes from applying `f` to some
input element. -/
theorem mapE_ok_mem {α β : Type} {f : α → Except String β} :
    ∀ {l : List α} {ys : List β}, mapE f l = Except.ok ys →
      ∀ y ∈ ys, ∃ x ∈ l, f x = Except.ok y := by
  intro l
  induction l with
  | nil => intro ys h y hy; simp only [mapE] at h; injection h with h; subst h; cases hy
  | cons x xs ih =>
    intro ys h y hy
    obtain ⟨y0, ys2, hx, hrest, rfl⟩ := mapE_cons_ok h
    rcases List.mem_cons.1 hy with rfl | hy
    · exact ⟨x, List.mem_cons_self x xs, hx⟩
    · obtain ⟨x0, hx0, hfx0⟩ := ih hrest y hy
      exact ⟨x0, List.mem_cons_of_mem x hx0, hfx0⟩

/-- Characterization of a successful `ParagraphSpan.mk?`. -/
theorem mk?_ok {i L : Nat} {br : List Nat} {rng : Int × Int} {s : ParagraphSpan}
    (h : ParagraphSpan.mk? i L br rng = Except.ok s) :
    s.char_range = (rng.1.toNat, rng.2.toNat) ∧ 0 ≤ rng.1 ∧ rng.1 < rng.2 ∧
    s.src_index = i ∧ s.src_length = L ∧ s.src_breaks = br := by
  unfold ParagraphSpan.mk? at h
  split_ifs at h with h1 h2
  simp only [Bool.or_eq_true, decide_eq_true_eq, not_or, not_lt] at h1
  injection h with h
  subst h
  refine ⟨rfl, h1.1, ?_, rfl, rfl, rfl⟩
  omega

/-- Every pair yielded by `splititer` has a left sub-span anchored at the
parent span's start (with a strictly larger end) and a right sub-span ending
at the parent's end. -/
theorem splititer_pair_shape {sp : ParagraphSpan} {src : List Char} {r : SplitPattern}
    {prs : List (ParagraphSpan × ParagraphSpan)}
    (h : sp.splititer src r = Except.ok prs) :
    ∀ pr ∈ prs, pr.1.char_range.1 = sp.char_range.1 ∧
      sp.char_range.1 < pr.1.char_range.2 ∧
      pr.2.char_range.2 = sp.char_range.2 ∧ pr.2.char_range.1 < sp.char_range.2 := by
  intro pr hpr
  unfold ParagraphSpan.splititer at h
  obtain ⟨m, _, hm⟩ := mapE_ok_mem h pr hpr
  rw [bindE_ok] at hm
  obtain ⟨b, hb, hm⟩ := hm
  rw [bindE_ok] at hm
  obtain ⟨left, hl, hm⟩ := hm
  rw [bindE_ok] at hm
  obtain ⟨right, hr, hm⟩ := hm
  rw [pureE_eq] at hm
  injection hm with hm
  subst hm
  obtain ⟨hlr, hl0, hllt, -⟩ := mk?_ok hl
  obtain ⟨hrr, hr0, hrlt, -⟩ := mk?_ok hr
  refine ⟨(by simp [hlr]), (by simp only [hlr]; omega), (by simp [hrr]),
    (by simp only [hrr]; omega)⟩

/-- The value of a successful `getLast?` is a member of the list. -/
theorem getLast?_mem_of_eq_some {α : Type} {l : List α} {a : α}
    (h : l.getLast? = some a) : a ∈ l := by
  obtain ⟨hne, heq⟩ := List.mem_getLast?_eq_getLast h
  subst heq
  exact List.getLast_mem hne

/-- A successful `findSplit` returns a pair from one of the splitters'
`splititer` lists whose left sub-span starts at the row's start and satisfies
the packing bound `pair[0].end - row.start + next_chunk_length <= max_length`. -/
theorem findSplit_ok_some {row : ParagraphSpan} {row_text : List Char}
    {accLen max_length : Nat} :
    ∀ {splitters : List SplitPattern} {lhs rhs : ParagraphSpan},
      findSplit row row_text accLen max_length splitters = Except.ok (some (lhs, rhs)) →
      lhs.char_range.1 = row.char_range.1 ∧ row.char_range.1 < lhs.char_range.2 ∧
      lhs.stop - row.start + accLen ≤ max_length := by
  intro splitters
  induction splitters with
  | nil => intro lhs rhs h; simp only [findSplit] at h; cases h
  | cons splitter rest ih =>
    intro lhs rhs h
    simp only [findSplit] at h
    rw [bindE_ok] at h
    obtain ⟨pairs, hit, h⟩ := h
    cases hlast : (pairs.filter
        (fun pr => decide (pr.1.stop - row.start + accLen ≤ max_length))).getLast? with
    | none => rw [hlast] at h; exact ih h
    | some pr =>
      rw [hlast] at h
      have h2 : (Except.ok (some pr) :
          Except String (Option (ParagraphSpan × ParagraphSpan))) =
          Except.ok (some (lhs, rhs)) := h
      injection h2 with h2
      injection h2 with h2
      subst h2
      have hmem := getLast?_mem_of_eq_some hlast
      have hfilter := List.of_mem_filter hmem
      have hpairs := List.mem_of_mem_filter hmem
      have hshape := splititer_pair_shape hit _ hpairs
      simp only [decide_eq_true_eq] at hfilter
      exact ⟨hshape.1, hshape.2.1, hfilter⟩

/-! ## Split-pass ceiling invariant (C2) -/

/-- The split loop only emits warning-free chunks whose length is within the
ceiling, provided the accumulator respects it. -/
theorem splitLoop_ceiling (row_getter : Nat → List Char) (max_length : Nat)
    (splitters : List SplitPattern) :
    ∀ (fuel : Nat) (rows acc : List ParagraphSpan) (accLen : Nat)
      (out res : List DocumentChunk),
      accLen = (acc.map ParagraphSpan.length).sum → accLen ≤ max_length →
      (∀ ch ∈ out, ch.warnings = [] → ch.len ≤ max_length) →
      splitLoop row_getter max_length splitters fuel rows acc accLen out = Except.ok res →
      ∀ ch ∈ res, ch.warnings = [] → ch.len ≤ max_length := by
  intro fuel
  induction fuel with
  | zero => intro rows acc accLen out res _ _ _ h; cases h
  | succ fuel ih =>
    intro rows acc accLen out res hsum hle hout h
    cases rows with
    | nil =>
      simp only [splitLoop] at h
      injection h with h; subst h
      intro ch hch hw
      rcases List.mem_append.1 hch with hch2 | hch2
      · exact hout ch hch2 hw
      · by_cases hacc : acc.isEmpty = true
        · rw [if_pos hacc] at hch2
          cases hch2
        · rw [if_neg hacc, List.mem_singleton] at hch2
          subst hch2
          simpa [DocumentChunk.len, ← hsum] using hle
    | cons row rows =>
      simp only [splitLoop] at h
      split_ifs at h with hfit
      · exact ih rows (acc ++ [row]) (accLen + row.length) out res
          (by simp [hsum, ParagraphSpan.length]) hfit hout h
      · rw [bindE_ok] at h
        obtain ⟨o, hfs, h⟩ := h
        cases o with
        | none =>
          refine ih rows acc accLen _ res hsum hle ?_ h
          intro ch hch hw
          rcases List.mem_append.1 hch with hch | hch
          · exact hout ch hch hw
          · simp only [List.mem_singleton] at hch
            subst hch
            simp at hw
        | some pr =>
          obtain ⟨lhs, rhs⟩ := pr
          obtain ⟨hstart, hlt, hbound⟩ := findSplit_ok_some hfs
          refine ih (rhs :: rows) [] 0 _ res rfl (Nat.zero_le _) ?_ h
          intro ch hch hw
          rcases List.mem_append.1 hch with hch | hch
          · exact hout ch hch hw
          · simp only [List.mem_singleton] at hch
            subst hch
            simp only [DocumentChunk.len, List.map_append, List.map_cons, List.map_nil,
              List.sum_append, List.sum_cons, List.sum_nil]
            have hld : lhs.length = lhs.stop - row.start := by
              simp only [ParagraphSpan.length, ParagraphSpan.stop, ParagraphSpan.start]
              omega
            simp only [ParagraphSpan.stop, ParagraphSpan.start] at hbound hld ⊢
            omega

/-- C2: after a successful `split_pass` with a positive ceiling, every chunk
in the resulting collection whose length exceeds `max_length` carries at
least one warning — equivalently, every warning-free chunk has length at most
`max_length`. -/
theorem C2_split_ceiling (c : BaseDocumentChunks) (fuel : Nat)
    (row_getter : Nat → List Char) (max_length : Nat) (splitters : List SplitPattern)
    (out : BaseDocumentChunks) (hmax : 0 < max_length)
    (h : c.split_pass fuel row_getter max_length splitters = Except.ok out) :
    ∀ ch ∈ out.collection, ch.warnings = [] → ch.len ≤ max_length := by
  unfold BaseDocumentChunks.split_pass at h
  split_ifs at h with hempty
  · injection h with h; subst h
    intro ch hch
    rw [List.isEmpty_iff] at hempty
    rw [hempty] at hch
    cases hch
  · rw [bindE_ok] at h
    obtain ⟨css, hcss, h⟩ := h
    rw [pureE_eq] at h
    injection h with h
    subst h
    intro ch hch hw
    simp only [List.mem_flatten] at hch
    obtain ⟨cs, hcs, hchcs⟩ := hch
    obtain ⟨chunk, _, hsplit⟩ := mapE_ok_mem hcss cs hcs
    unfold splitChunk at hsplit
    split_ifs at hsplit with hlen
    · injection hsplit with hsplit
      subst hsplit
      simp only [List.mem_singleton] at hchcs
      subst hchcs
      exact hlen
    · exact splitLoop_ceiling row_getter max_length splitters fuel
        chunk.paragraph_metadata [] 0 [] cs rfl (Nat.zero_le _)
        (by intro x hx; cases hx) hsplit ch hchcs hw

/-- C2 witness: the ceiling invariant applied to a concrete run whose single
output chunk is warning-free, bounding its length by the ceiling. -/
theorem C2_split_ceiling_witness :
    DocumentChunk.len ⟨[⟨0, 6, [], (0, 6)⟩], TranslationState.UNTRANSLATED, []⟩ ≤ 10 :=
  C2_split_ceiling (BaseDocumentChunks.from_paragraphs ["abcdef".toList]) 10
    (fun _ => "abcdef".toList) 10 []
    ⟨none, [⟨[⟨0, 6, [], (0, 6)⟩], TranslationState.UNTRANSLATED, []⟩]⟩
    (by decide) rfl
    ⟨[⟨0, 6, [], (0, 6)⟩], TranslationState.UNTRANSLATED, []⟩
    (by decide) rfl

/-! ## Round-trip export (C1) -/

/-- One pass over a chunk collection, as a caller would schedule them. -/
inductive ChunkPass
  | merge (max_length : Nat)
  | split (fuel : Nat) (max_length : Nat) (splitters : List SplitPattern)

/-- Apply a finite sequence of merge and split passes to a collection,
propagating any exception a split pass raises. -/
def applyPasses (row_getter : Nat → List Char) :
    BaseDocumentChunks → List ChunkPass → Except String BaseDocumentChunks
  | c, [] => Except.ok c
  | c, ChunkPass.merge m :: ps => applyPasses row_getter (c.merge_pass m) ps
  | c, ChunkPass.split fuel m rules :: ps => do
      let c2 ← c.split_pass fuel row_getter m rules
      applyPasses row_getter c2 ps

/-- Per-paragraph well-ordering of a collection's spans relative to source
paragraphs `P`: bucketed by `src_index` in traversal order (as the export's
`override_dict` does), each paragraph's spans record the paragraph's true
length, are non-empty, lie within the paragraph, and appear in document order
without overlap. -/
def ParagraphOrdered (P : List (List Char)) (c : BaseDocumentChunks) : Prop :=
  ∀ i : Nat,
    (∀ s ∈ c.flatSpans.filter (fun s => s.src_index = i),
      s.src_length = (P.getD i []).length ∧ s.char_range.1 < s.char_range.2 ∧
      s.char_range.2 ≤ s.src_length) ∧
    List.Chain' (fun x y => x.char_range.2 ≤ y.char_range.1)
      (c.flatSpans.filter (fun s => s.src_index = i))

/-- `pySlice` as take-after-drop. -/
theorem pySlice_eq (s : List Char) (a b : Nat) :
    pySlice s a b = (s.drop a).take (b - a) :=
  List.drop_take b a s

/-- Adjacent slices concatenate. -/
theorem pySlice_append (s : List Char) {a b c : Nat} (hab : a ≤ b) (hbc : b ≤ c) :
    pySlice s a b ++ pySlice s b c = pySlice s a c := by
  rw [pySlice_eq, pySlice_eq, pySlice_eq]
  have hdrop : s.drop b = (s.drop a).drop (b - a) := by
    rw [List.drop_drop]
    congr 1
    omega
  rw [hdrop, ← List.take_add]
  congr 1
  omega

/-- An empty slice. -/
theorem pySlice_self (s : List Char) {a b : Nat} (h : b ≤ a) : pySlice s a b = [] := by
  rw [pySlice_eq]
  have hz : b - a = 0 := by omega
  rw [hz, List.take_zero]

/-- The full slice. -/
theorem pySlice_all (s : List Char) : pySlice s 0 s.length = s := by
  rw [pySlice_eq, List.drop_zero, Nat.sub_zero, List.take_length]

/-- A successful bind on a known-`ok` value reduces. -/
theorem bindE_ok_left {α β : Type} (a : α) (f : α → Except String β) :
    (Except.ok a >>= f) = f a := rfl

/-- The reconstruction loop of the export: over ordered, in-bounds overrides
whose recorded lengths match the source, it reproduces the source text from
the insertion point onward. -/
theorem exportLoop_ok (src : List Char) :
    ∀ (ovs : List ParagraphSpan) (ip : Nat) (acc : List Char),
      (∀ s ∈ ovs, s.src_length = src.length ∧ s.char_range.1 < s.char_range.2 ∧
        s.char_range.2 ≤ src.length) →
      List.Chain' (fun x y => x.char_range.2 ≤ y.char_range.1) ovs →
      (∀ s, ovs.head? = some s → ip ≤ s.char_range.1) →
      ip ≤ src.length →
      exportLoop src ovs ip acc = Except.ok (acc ++ pySlice src ip src.length) := by
  intro ovs
  induction ovs with
  | nil =>
    intro ip acc _ _ _ hip
    by_cases hlt : ip < src.length
    · simp only [exportLoop, if_pos hlt]
    · have hip_eq : ip = src.length := by omega
      simp only [exportLoop, if_neg hlt]
      rw [pySlice_self src (by omega)]
  | cons ov rest ih =>
    intro ip acc hall hchain hhead hip
    obtain ⟨hlen, hlt, hle⟩ := hall ov (List.mem_cons_self _ _)
    have hipov : ip ≤ ov.char_range.1 := hhead ov rfl
    have ht : ov.to_text src = Except.ok (pySlice src ov.start ov.stop) := by
      unfold ParagraphSpan.to_text
      rw [if_pos hlen.symm]
    rw [List.chain'_cons'] at hchain
    simp only [exportLoop]
    rw [ht, bindE_ok_left]
    have hgap : (if ov.start > ip then pySlice src ip ov.start else []) =
        pySlice src ip ov.start := by
      split_ifs with hg
      · rfl
      · rw [pySlice_self src (by simp only [ParagraphSpan.start] at hg ⊢; omega)]
    rw [hgap]
    rw [ih ov.stop _ (fun s hs => hall s (List.mem_cons_of_mem _ hs)) hchain.2
      (fun s hs => hchain.1 s (by rw [hs]; rfl)) (by simp only [ParagraphSpan.stop]; omega)]
    congr 1
    simp only [ParagraphSpan.start, ParagraphSpan.stop, List.append_assoc]
    congr 1
    rw [pySlice_append src (by omega) (by omega), pySlice_append src (by omega) (by omega)]

/-- `mapE` of a pointwise-successful function computes the map. -/
theorem mapE_ok_of_forall {α β : Type} {f : α → Except String β} {g : α → β} :
    ∀ {l : List α}, (∀ x ∈ l, f x = Except.ok (g x)) → mapE f l = Except.ok (l.map g) := by
  intro l
  induction l with
  | nil => intro _; rfl
  | cons x xs ih =>
    intro h
    simp only [mapE]
    rw [h x (List.mem_cons_self _ _), bindE_ok_left,
      ih (fun y hy => h y (List.mem_cons_of_mem _ hy)), bindE_ok_left, List.map_cons]
    rfl

/-- Reading back a list through `getD` over its index range. -/
theorem range_map_getD {α : Type} (d : α) : ∀ (l : List α),
    (List.range l.length).map (fun i => l.getD i d) = l := by
  intro l
  induction l with
  | nil => rfl
  | cons x xs ih =>
    rw [List.length_cons, List.range_succ_eq_map, List.map_cons, List.map_map]
    have hcomp : ((fun i => (x :: xs).getD i d) ∘ (· + 1)) = fun i => xs.getD i d := rfl
    rw [hcomp, ih]
    rfl

/-- Export correctness: a `ParagraphOrdered` collection round-trips the
source paragraphs exactly. -/
theorem export_ok (P : List (List Char)) (c : BaseDocumentChunks)
    (hord : ParagraphOrdered P c) :
    c.to_paragraph_exports_iter (fun i => P.getD i []) P.length = Except.ok P := by
  unfold BaseDocumentChunks.to_paragraph_exports_iter
  have hpoint : ∀ i ∈ List.range P.length,
      exportLoop ((fun j => P.getD j []) i)
        (c.flatSpans.filter (fun s => s.src_index = i)) 0 [] =
      Except.ok (P.getD i []) := by
    intro i _
    obtain ⟨hall, hchain⟩ := hord i
    rw [exportLoop_ok (P.getD i []) _ 0 []
      (fun s hs => by
        obtain ⟨h1, h2, h3⟩ := hall s hs
        exact ⟨h1, h2, by omega⟩)
      hchain (fun s _ => Nat.zero_le _) (Nat.zero_le _)]
    rw [List.nil_append, pySlice_all]
  rw [mapE_ok_of_forall hpoint, range_map_getD]

/-- A prefix test bounds the length. -/
theorem isPrefixOf_length_le : ∀ {l₁ l₂ : List Char},
    l₁.isPrefixOf l₂ = true → l₁.length ≤ l₂.length := by
  intro l₁
  induction l₁ with
  | nil => intro l₂ _; simp
  | cons a as ih =>
    intro l₂ h
    cases l₂ with
    | nil => simp [List.isPrefixOf] at h
    | cons b bs =>
      simp only [List.isPrefixOf, Bool.and_eq_true] at h
      have := ih h.2
      simp only [List.length_cons]
      omega

/-- `dropWhile` cannot lengthen a list. -/
theorem length_dropWhile_le (p : Char → Bool) : ∀ (l : List Char),
    (l.dropWhile p).length ≤ l.length := by
  intro l
  induction l with
  | nil => simp
  | cons x xs ih =>
    rw [List.dropWhile_cons]
    split_ifs
    · exact le_trans ih (by simp)
    · simp

/-- Stripping cannot lengthen a string. -/
theorem pyStrip_length_le (s : List Char) : (pyStrip s).length ≤ s.length := by
  unfold pyStrip
  rw [List.length_reverse]
  calc ((s.dropWhile isPySpace).reverse.dropWhile isPySpace).length
      ≤ (s.dropWhile isPySpace).reverse.length := length_dropWhile_le _ _
    _ = (s.dropWhile isPySpace).length := List.length_reverse _
    _ ≤ s.length := length_dropWhile_le _ _

/-- The first-occurrence index found by `str.index` leaves room for the
needle inside the haystack. -/
theorem pyIndex_le {hay needle : List Char} (hne : needle ≠ [])
    (hlen : needle.length ≤ hay.length) :
    pyIndex hay needle + needle.length ≤ hay.length := by
  unfold pyIndex
  cases hfind : (List.range (hay.length + 1)).find?
      (fun i => needle.isPrefixOf (hay.drop i)) with
  | none =>
    show 0 + needle.length ≤ hay.length
    simpa using hlen
  | some i =>
    show i + needle.length ≤ hay.length
    have hp := List.find?_some hfind
    have hpre := isPrefixOf_length_le hp
    rw [List.length_drop] at hpre
    have hnl : 0 < needle.length := List.length_pos.2 hne
    omega

/-- `from_single_paragraph` records the paragraph index unchanged. -/
theorem from_single_paragraph_src_index (i : Nat) (t : List Char) :
    (ParagraphSpan.from_single_paragraph i t).src_index = i := by
  simp only [ParagraphSpan.from_single_paragraph]
  split_ifs <;> rfl

/-- For a non-blank paragraph, `from_single_paragraph` yields a span
recording the paragraph's length, with a non-empty in-bounds range. -/
theorem from_single_paragraph_bounds (i : Nat) (t : List Char) (h : pyStrip t ≠ []) :
    (ParagraphSpan.from_single_paragraph i t).src_length = t.length ∧
    (ParagraphSpan.from_single_paragraph i t).char_range.1 <
      (ParagraphSpan.from_single_paragraph i t).char_range.2 ∧
    (ParagraphSpan.from_single_paragraph i t).char_range.2 ≤ t.length := by
  have h1 : 0 < (pyStrip t).length := List.length_pos.2 h
  have h2 := pyStrip_length_le t
  simp only [ParagraphSpan.from_single_paragraph]
  split_ifs with hfull
  · exact ⟨rfl, (by simpa using Nat.lt_of_lt_of_le h1 h2), le_refl _⟩
  · have h3 := pyIndex_le h h2
    refine ⟨rfl, ?_, ?_⟩
    · simp only
      omega
    · simpa using h3

/-- All chunks built from non-blank rows succeed, so the ingestion
`filterMap` is a plain map; the flattened spans are one span per row. -/
theorem flatSpans_of_nonblank : ∀ (l : List (Nat × List Char)),
    (∀ p ∈ l, pyStrip p.2 ≠ []) →
    (((l.filterMap (fun p => (DocumentChunk.from_single_paragraph p.1 p.2).toOption)).map
      DocumentChunk.paragraph_metadata).flatten =
    l.map (fun p => ParagraphSpan.from_single_paragraph p.1 p.2)) := by
  intro l
  induction l with
  | nil => intro _; rfl
  | cons p ps ih =>
    intro h
    have hp := h p (List.mem_cons_self _ _)
    have hchunk : DocumentChunk.from_single_paragraph p.1 p.2 =
        Except.ok { paragraph_metadata := [ParagraphSpan.from_single_paragraph p.1 p.2]
                    state := TranslationState.UNTRANSLATED, warnings := [] } := by
      unfold DocumentChunk.from_single_paragraph
      rw [if_neg hp]
    have htoo : (DocumentChunk.from_single_paragraph p.1 p.2).toOption =
        some { paragraph_metadata := [ParagraphSpan.from_single_paragraph p.1 p.2]
               state := TranslationState.UNTRANSLATED, warnings := [] } := by
      rw [hchunk]
      rfl
    simp only [List.filterMap_cons, htoo, List.map_cons, List.flatten_cons,
      ih (fun q hq => h q (List.mem_cons_of_mem _ hq)), List.singleton_append]

/-- Indexed membership in `enum` recovers the element through `getD`. -/
theorem enum_getD {α : Type} (d : α) {P : List α} {p : Nat × α} (h : p ∈ P.enum) :
    P.getD p.1 d = p.2 := by
  have h2 : p ∈ List.enumFrom 0 P := h
  obtain ⟨-, hlt, hval⟩ := List.mem_enumFrom h2
  have hlt2 : p.1 < P.length := by omega
  exact (List.getD_eq_getElem P d hlt2).trans hval.symm

/-- The indices of `enumFrom` are strictly increasing. -/
theorem enumFrom_fst_pairwise {α : Type} : ∀ (l : List α) (n : Nat),
    List.Pairwise (fun a b : Nat × α => a.1 < b.1) (l.enumFrom n) := by
  intro l
  induction l with
  | nil => intro n; exact List.Pairwise.nil
  | cons x xs ih =>
    intro n
    refine List.Pairwise.cons ?_ (ih (n + 1))
    intro b hb
    have := (List.mem_enumFrom hb).1
    simpa using (by omega : n < b.1)

/-- Lists of at most one element are vacuously chains. -/
theorem chain'_of_length_le_one {α : Type} {R : α → α → Prop} :
    ∀ {l : List α}, l.length ≤ 1 → List.Chain' R l := by
  intro l h
  match l with
  | [] => exact List.chain'_nil
  | [x] => exact List.chain'_singleton x
  | x :: y :: t => simp at h

/-- With strictly increasing row indices, at most one ingested span lands in
any given paragraph bucket. -/
theorem bucket_len_le_one (i : Nat) : ∀ (l : List (Nat × List Char)),
    List.Pairwise (fun a b : Nat × List Char => a.1 < b.1) l →
    ((l.map (fun p => ParagraphSpan.from_single_paragraph p.1 p.2)).filter
      (fun s => s.src_index = i)).length ≤ 1 := by
  intro l
  induction l with
  | nil => intro _; simp
  | cons p ps ih =>
    intro hpw
    rw [List.pairwise_cons] at hpw
    simp only [List.map_cons, List.filter_cons]
    by_cases hi : (ParagraphSpan.from_single_paragraph p.1 p.2).src_index = i
    · rw [if_pos (by simpa using hi)]
      have hrest : ((ps.map (fun p => ParagraphSpan.from_single_paragraph p.1 p.2)).filter
          (fun s => s.src_index = i)) = [] := by
        rw [List.filter_eq_nil_iff]
        intro s hs
        obtain ⟨q, hq, rfl⟩ := List.mem_map.1 hs
        have hlt := hpw.1 q hq
        rw [from_single_paragraph_src_index] at hi ⊢
        simp only [decide_eq_true_eq]
        omega
      rw [hrest]
      simp
    · rw [if_neg (by simpa using hi)]
      exact ih hpw.2

/-- Ingestion establishes the per-paragraph ordering invariant. -/
theorem from_paragraphs_ordered (P : List (List Char)) :
    ParagraphOrdered P (BaseDocumentChunks.from_paragraphs P) := by
  have hflat : (BaseDocumentChunks.from_paragraphs P).flatSpans =
      (P.enum.filter (fun p => pyStrip p.2 ≠ [])).map
        (fun p => ParagraphSpan.from_single_paragraph p.1 p.2) := by
    unfold BaseDocumentChunks.from_paragraphs BaseDocumentChunks.flatSpans
    exact flatSpans_of_nonblank _
      (fun p hp => by simpa using List.of_mem_filter hp)
  have hpw : List.Pairwise (fun a b : Nat × List Char => a.1 < b.1)
      (P.enum.filter (fun p => pyStrip p.2 ≠ [])) := by
    have : List.Pairwise (fun a b : Nat × List Char => a.1 < b.1) P.enum :=
      enumFrom_fst_pairwise P 0
    exact this.filter _
  intro i
  rw [hflat]
  constructor
  · intro s hs
    have hmem := List.mem_of_mem_filter hs
    obtain ⟨p, hpl, rfl⟩ := List.mem_map.1 hmem
    have hpe : p ∈ P.enum := List.mem_of_mem_filter hpl
    have hpb : pyStrip p.2 ≠ [] := by simpa using List.of_mem_filter hpl
    have hfil : (ParagraphSpan.from_single_paragraph p.1 p.2).src_index = i := by
      simpa using List.of_mem_filter hs
    obtain ⟨hb1, hb2, hb3⟩ := from_single_paragraph_bounds p.1 p.2 hpb
    rw [from_single_paragraph_src_index] at hfil
    subst hfil
    rw [enum_getD [] hpe]
    exact ⟨hb1, hb2, (by rw [hb1]; exact hb3)⟩
  · exact chain'_of_length_le_one (bucket_len_le_one i _ hpw)

/-- `mergeLoop` preserves the flattened span sequence exactly. -/
theorem mergeLoop_flat (max_length : Nat) :
    ∀ (rest : List DocumentChunk) (current : DocumentChunk),
      ((mergeLoop max_length current rest).map DocumentChunk.paragraph_metadata).flatten =
      current.paragraph_metadata ++ (rest.map DocumentChunk.paragraph_metadata).flatten := by
  intro rest
  induction rest with
  | nil => intro current; simp [mergeLoop]
  | cons chunk rest ih =>
    intro current
    by_cases hcond : current.eval_adjacency chunk = Adjacency.FORWARD ∧
        current.len + chunk.len ≤ max_length
    · rw [mergeLoop, if_pos hcond, ih]
      simp [List.append_assoc]
    · rw [mergeLoop, if_neg hcond]
      simp only [List.map_cons, List.flatten_cons, ih chunk]

/-- `merge_pass` preserves the flattened span sequence. -/
theorem merge_pass_flatSpans (c : BaseDocumentChunks) (m : Nat) :
    (c.merge_pass m).flatSpans = c.flatSpans := by
  rcases hcol : c.collection with _ | ⟨x, xs⟩
  · unfold BaseDocumentChunks.merge_pass
    rw [hcol]
  · rcases xs with _ | ⟨y, ys⟩
    · unfold BaseDocumentChunks.merge_pass
      rw [hcol]
    · unfold BaseDocumentChunks.merge_pass BaseDocumentChunks.flatSpans
      rw [hcol]
      show ((mergeLoop m x (y :: ys)).map DocumentChunk.paragraph_metadata).flatten = _
      rw [mergeLoop_flat]
      simp

/-- `merge_pass` preserves the per-paragraph ordering invariant. -/
theorem merge_pass_ordered {P : List (List Char)} {c : BaseDocumentChunks} {m : Nat}
    (h : ParagraphOrdered P c) : ParagraphOrdered P (c.merge_pass m) := by
  intro i
  rw [merge_pass_flatSpans]
  exact h i

/-- `re.finditer` for a zero-width lookahead `(?=pat)`: an empty-width match
at every position where `pat` follows (the scan advances past empty
matches one position at a time). -/
def lookaheadMatches (pat s : List Char) : List ReMatch :=
  ((List.range (s.length + 1)).filter (fun i => pat.isPrefixOf (s.drop i))).map
    (fun i => ⟨(i, i), []⟩)

/-- Model of the Python regex `(?=def)`.  Its derived policy is
`INCLUDE_BOTH` (the pattern source starts with `(` and ends with `)`, so
both `CAPTURE_LEFT` and `CAPTURE_RIGHT` match), but the pattern has no
capture groups, so `any(match.groups())` is falsy, no narrowing is
attempted (in particular `match.start(-1)` is never executed), and splits
use the raw zero-width match boundaries. -/
def c1rule : SplitPattern :=
  ⟨"(?=def)", SplitBehavior.INCLUDE_BOTH, lookaheadMatches "def".toList⟩

/-- C1 counterexample: from `from_paragraphs ["abcdef"]`, splitting at the
zero-width lookahead `(?=def)` under ceiling 5 gives the forward-adjacent
chunks `(0, 3)` and `(3, 6)`; a merge pass with ceiling 6 rejoins them into
one chunk; a further split pass with ceiling 4 and no rules then exercises
the warning path, which appends the unsplittable row `(3, 6)` as its own
chunk *before* flushing the pending accumulator holding `(0, 3)` — the
paragraph's spans leave document order, and the export emits
`"abcdefabcdef"` instead of `"abcdef"`, although nothing was translated. -/
theorem C1_counterexample :
    ((applyPasses (fun i => ["abcdef".toList].getD i [])
        (BaseDocumentChunks.from_paragraphs ["abcdef".toList])
        [ChunkPass.split 10 5 [c1rule], ChunkPass.merge 6,
         ChunkPass.split 10 4 []]) >>= (fun c =>
      c.to_paragraph_exports_iter (fun i => ["abcdef".toList].getD i []) 1)) =
      Except.ok ["abcdefabcdef".toList] ∧
    ["abcdefabcdef".toList] ≠ ["abcdef".toList] :=
  ⟨rfl, (by decide)⟩

/-- C1 (amended): ingestion establishes the per-paragraph ordering invariant
(each paragraph's spans in document order, non-overlapping, in bounds, with
true recorded lengths); every merge pass preserves it; and for every pass
sequence that completes, whenever the resulting collection still satisfies
the invariant (split passes can break it), `to_paragraph_exports_iter` with
the original paragraph accessor reproduces `P` exactly. -/
theorem C1_roundtrip_export (P : List (List Char)) :
    ParagraphOrdered P (BaseDocumentChunks.from_paragraphs P) ∧
    (∀ (c : BaseDocumentChunks) (m : Nat), ParagraphOrdered P c →
      ParagraphOrdered P (c.merge_pass m)) ∧
    (∀ (passes : List ChunkPass) (c : BaseDocumentChunks),
      applyPasses (fun i => P.getD i []) (BaseDocumentChunks.from_paragraphs P) passes =
        Except.ok c →
      ParagraphOrdered P c →
      c.to_paragraph_exports_iter (fun i => P.getD i []) P.length = Except.ok P) :=
  ⟨from_paragraphs_ordered P, fun _ _ h => merge_pass_ordered h,
   fun _ c _ hord => export_ok P c hord⟩

/-- C1 witness: the empty pass sequence on one ingested paragraph exports it
back verbatim. -/
theorem C1_roundtrip_export_witness :
    (BaseDocumentChunks.from_paragraphs ["ab".toList]).to_paragraph_exports_iter
      (fun i => ["ab".toList].getD i []) (["ab".toList] : List (List Char)).length =
      Except.ok ["ab".toList] :=
  (C1_roundtrip_export ["ab".toList]).2.2 [] (BaseDocumentChunks.from_paragraphs ["ab".toList])
    rfl ((C1_roundtrip_export ["ab".toList]).1)

/-! ## Inclusion-policy narrowing (C4) -/

/-- A successful `mapE` is pointwise successful, in order. -/
theorem mapE_ok_forall₂ {α β : Type} {f : α → Except String β} :
    ∀ {l : List α} {ys : List β}, mapE f l = Except.ok ys →
      List.Forall₂ (fun x y => f x = Except.ok y) l ys := by
  intro l
  induction l with
  | nil =>
    intro ys h
    simp only [mapE] at h
    injection h with h
    subst h
    exact List.Forall₂.nil
  | cons x xs ih =>
    intro ys h
    obtain ⟨y, ys2, hx, hrest, rfl⟩ := mapE_cons_ok h
    exact List.Forall₂.cons hx (ih hrest)

/-- `mapE` succeeds only if every input element succeeds. -/
theorem mapE_ok_input {α β : Type} {f : α → Except String β} :
    ∀ {l : List α} {ys : List β}, mapE f l = Except.ok ys →
      ∀ x ∈ l, ∃ y, f x = Except.ok y := by
  intro l
  induction l with
  | nil => intro ys _ x hx; cases hx
  | cons a as ih =>
    intro ys h x hx
    obtain ⟨y0, ys2, ha, hrest, rfl⟩ := mapE_cons_ok h
    rcases List.mem_cons.1 hx with rfl | hx
    · exact ⟨y0, ha⟩
    · exact ih hrest x hx

/-- Characterization of the boundary computation when it does not raise:
the right boundary is always the raw match end (right-narrowing raises
instead of completing), and the left boundary narrows to `match.end(1)`
exactly under `INCLUDE_LEFT`/`INCLUDE_BOTH` with a truthy group. -/
theorem splitBounds_ok {b : SplitBehavior} {m : ReMatch} {bounds : Int × Int}
    (h : splitBounds b m = Except.ok bounds) :
    ¬(b.hasRight = true ∧ m.anyGroups = true) ∧
    bounds.1 = (if b.hasLeft = true ∧ m.anyGroups = true then m.endg1
      else (m.mspan.1 : Int)) ∧
    bounds.2 = (m.mspan.2 : Int) := by
  unfold splitBounds at h
  by_cases hg : m.anyGroups = true
  · rw [if_pos hg] at h
    by_cases hr : b.hasRight = true
    · rw [if_pos hr] at h
      cases h
    · rw [if_neg hr] at h
      injection h with h
      subst h
      by_cases hl : b.hasLeft = true <;> simp [hl, hg, hr]
  · rw [if_neg hg] at h
    injection h with h
    subst h
    simp [hg]

/-- Model of the Python regex `(?:xy)(a*)b`.  Its derived policy is
`INCLUDE_LEFT` (`CAPTURE_LEFT = ^\(.*?\)` matches the leading non-capturing
`(?:xy)`; `CAPTURE_RIGHT` fails since the source ends in `b`).  On the text
`"wxyb.."`, `re.finditer` yields exactly one match, spanning `(1, 4)`, whose
only capture group `(a*)` participated and matched the empty string at
`(3, 3)`. -/
def c4rule : SplitPattern :=
  ⟨"(?:xy)(a*)b", SplitBehavior.INCLUDE_LEFT,
    fun s => if s = "wxyb..".toList then [⟨(1, 4), [some (3, 3)]⟩] else []⟩

/-- Model of the Python regex `(ab)`: literal matches of `ab` with a single
capture group spanning the whole match.  Its derived policy is
`INCLUDE_BOTH`: both `CAPTURE_LEFT` and `CAPTURE_RIGHT` match the pattern
source `(ab)`. -/
def c4ruleBoth : SplitPattern :=
  ⟨"(ab)", SplitBehavior.INCLUDE_BOTH,
    fun s => (literalMatches "ab".toList s).map (fun m => ⟨m.mspan, [some m.mspan]⟩)⟩

/-- C4 counterexample, two independent failures of the claimed narrowing.
Left: under `INCLUDE_LEFT`, the match's first capture group matched (the
empty string, ending at 3), so the claim says the yielded left boundary moves
to 3; but `any(match.groups())` is falsy for empty-string groups, so the code
keeps the raw match start and yields a left sub-span ending at 1.  Right:
under `INCLUDE_BOTH` with a truthy group, the claim says the right boundary
moves to the start of the last capture group; but `match.start(-1)` raises
`IndexError: no such group`, so `splititer` raises instead of yielding. -/
theorem C4_counterexample :
    (ParagraphSpan.splititer ⟨0, 6, [], (0, 6)⟩ "wxyb..".toList c4rule =
      Except.ok [(⟨0, 6, [], (0, 1)⟩, ⟨0, 6, [], (4, 6)⟩)] ∧
    c4rule.behavior.hasLeft = true ∧
    (c4rule.matcher "wxyb..".toList).map ReMatch.endg1 = [3] ∧
    (1 : Nat) ≠ 3) ∧
    (c4ruleBoth.behavior.hasRight = true ∧
    ParagraphSpan.splititer ⟨0, 6, [], (0, 6)⟩ "xxabyy".toList c4ruleBoth =
      Except.error "no such group") :=
  ⟨⟨rfl, rfl, rfl, (by decide)⟩, rfl, rfl⟩

/-- C4 (amended): for every match inside the span's active range, when
`splititer` completes, the yielded pair keeps the raw right boundary (the
match's end) and narrows the left boundary to `match.end(1)` exactly under
`INCLUDE_LEFT`/`INCLUDE_BOTH` when some capture group matched a *non-empty*
substring (the Python truthiness of `any(match.groups())`); matches whose
groups are all absent or empty keep both raw boundaries.  Right-side
narrowing never completes: for an `INCLUDE_RIGHT`/`INCLUDE_BOTH` rule, any
in-range match with a truthy group makes `match.start(-1)` raise
`IndexError`, so `splititer` yields no list at all. -/
theorem C4_splititer_narrowing (sp : ParagraphSpan) (src : List Char)
    (rule : SplitPattern) :
    (∀ prs, sp.splititer src rule = Except.ok prs →
      List.Forall₂ (fun m pr =>
        ¬(rule.behavior.hasRight = true ∧ m.anyGroups = true) ∧
        (pr.1.char_range.1 : Int) = (sp.char_range.1 : Int) ∧
        (pr.1.char_range.2 : Int) =
          (if rule.behavior.hasLeft = true ∧ m.anyGroups = true then m.endg1
           else (m.mspan.1 : Int)) ∧
        (pr.2.char_range.1 : Int) = (m.mspan.2 : Int) ∧
        (pr.2.char_range.2 : Int) = (sp.char_range.2 : Int))
        ((rule.matcher src).filter (fun m => rangeIncludes sp.char_range m.mspan)) prs) ∧
    (∀ m ∈ (rule.matcher src).filter (fun m => rangeIncludes sp.char_range m.mspan),
      rule.behavior.hasRight = true → m.anyGroups = true →
      ∀ prs, sp.splititer src rule ≠ Except.ok prs) := by
  constructor
  · intro prs h
    unfold ParagraphSpan.splititer at h
    refine (mapE_ok_forall₂ h).imp ?_
    intro m pr hm
    rw [bindE_ok] at hm
    obtain ⟨b, hb, hm⟩ := hm
    rw [bindE_ok] at hm
    obtain ⟨left, hl, hm⟩ := hm
    rw [bindE_ok] at hm
    obtain ⟨right, hr, hm⟩ := hm
    rw [pureE_eq] at hm
    injection hm with hm
    subst hm
    obtain ⟨hnr, hb1, hb2⟩ := splitBounds_ok hb
    obtain ⟨hlr, hl1, hl2, -⟩ := mk?_ok hl
    obtain ⟨hrr, hr1, hr2, -⟩ := mk?_ok hr
    refine ⟨hnr, ?_, ?_, ?_, ?_⟩ <;> simp only [hlr, hrr, ← hb1, ← hb2] <;> omega
  · intro m hm hright htruthy prs h
    unfold ParagraphSpan.splititer at h
    obtain ⟨y, hy⟩ := mapE_ok_input h m hm
    rw [bindE_ok] at hy
    obtain ⟨b, hb, -⟩ := hy
    unfold splitBounds at hb
    rw [if_pos htruthy, if_pos hright] at hb
    cases hb

/-- C4 witness: the narrowing law at a concrete span, text and the default
sentence rule (match `". "` at `(2, 4)`, group `(2, 3)`, `INCLUDE_LEFT`). -/
theorem C4_splititer_narrowing_witness :
    List.Forall₂ (fun m pr =>
        ¬(sentenceSplitRule.behavior.hasRight = true ∧ ReMatch.anyGroups m = true) ∧
        ((pr : ParagraphSpan × ParagraphSpan).1.char_range.1 : Int) =
          ((⟨0, 6, [], (0, 6)⟩ : ParagraphSpan).char_range.1 : Int) ∧
        (pr.1.char_range.2 : Int) =
          (if sentenceSplitRule.behavior.hasLeft = true ∧ ReMatch.anyGroups m = true
           then ReMatch.endg1 m else (m.mspan.1 : Int)) ∧
        (pr.2.char_range.1 : Int) = (m.mspan.2 : Int) ∧
        (pr.2.char_range.2 : Int) = ((⟨0, 6, [], (0, 6)⟩ : ParagraphSpan).char_range.2 : Int))
      ((sentenceSplitRule.matcher "ab. cd".toList).filter
        (fun m => rangeIncludes (⟨0, 6, [], (0, 6)⟩ : ParagraphSpan).char_range m.mspan))
      [(⟨0, 6, [], (0, 3)⟩, ⟨0, 6, [], (4, 6)⟩)] :=
  (C4_splititer_narrowing ⟨0, 6, [], (0, 6)⟩ "ab. cd".toList sentenceSplitRule).1
    [(⟨0, 6, [], (0, 3)⟩, ⟨0, 6, [], (4, 6)⟩)] rfl

/-! ## Merge-pass frame effect (C9) -/

/-- The chunk a merge group collapses to: the concatenation of the group's
span lists, with the `state` and `warnings` of the group's first (running)
chunk; the absorbed chunks contribute only their spans. -/
def mergeGroup (g : List DocumentChunk) : DocumentChunk :=
  { paragraph_metadata := (g.map DocumentChunk.paragraph_metadata).flatten
    state := (g.headD default).state
    warnings := (g.headD default).warnings }

/-- `mergeLoop` partitions its input into a first group absorbed into the
running chunk and further non-empty groups, each collapsed by `mergeGroup`. -/
theorem mergeLoop_groups (max_length : Nat) :
    ∀ (rest : List DocumentChunk) (current : DocumentChunk),
      ∃ (g : List DocumentChunk) (gs : List (List DocumentChunk)),
        rest = g ++ gs.flatten ∧ (∀ x ∈ gs, x ≠ []) ∧
        mergeLoop max_length current rest = mergeGroup (current :: g) :: gs.map mergeGroup := by
  intro rest
  induction rest with
  | nil =>
    intro current
    exact ⟨[], [], rfl, (by intro x hx; cases hx), (by simp [mergeLoop, mergeGroup])⟩
  | cons chunk rest ih =>
    intro current
    by_cases hcond : current.eval_adjacency chunk = Adjacency.FORWARD ∧
        current.len + chunk.len ≤ max_length
    · obtain ⟨g, gs, hr, hne, heq⟩ := ih
        { current with
            paragraph_metadata := current.paragraph_metadata ++ chunk.paragraph_metadata }
      refine ⟨chunk :: g, gs, (by simp [hr]), hne, ?_⟩
      rw [mergeLoop, if_pos hcond, heq]
      simp [mergeGroup, List.flatten, List.append_assoc]
    · obtain ⟨g, gs, hr, hne, heq⟩ := ih chunk
      refine ⟨[], (chunk :: g) :: gs, (by simp [hr]), ?_, ?_⟩
      · intro x hx
        rcases List.mem_cons.1 hx with rfl | hx
        · exact List.cons_ne_nil chunk g
        · exact hne x hx
      · rw [mergeLoop, if_neg hcond, heq]
        simp [mergeGroup]

/-- C9: when `merge_pass` absorbs chunks, the collection becomes a list of
collapsed groups: each output chunk's span list is the concatenation of its
group's span lists, while its `translation_state` and `warnings` are exactly
those of the group's first (running) chunk — the absorbed chunks' states and
warnings are discarded, not combined. -/
theorem C9_merge_frame (c : BaseDocumentChunks) (max_length : Nat) :
    ∃ groups : List (List DocumentChunk),
      groups.flatten = c.collection ∧ (∀ g ∈ groups, g ≠ []) ∧
      (c.merge_pass max_length).collection = groups.map mergeGroup := by
  rcases hcol : c.collection with _ | ⟨first, rest⟩
  · refine ⟨[], rfl, (by intro g hg; cases hg), ?_⟩
    unfold BaseDocumentChunks.merge_pass
    rw [hcol]
    exact hcol
  · rcases rest with _ | ⟨second, rest2⟩
    · refine ⟨[[first]], (by simp), (by simp), ?_⟩
      unfold BaseDocumentChunks.merge_pass
      rw [hcol]
      simp [mergeGroup]
      exact hcol
    · obtain ⟨g, gs, hr, hne, heq⟩ := mergeLoop_groups max_length (second :: rest2) first
      refine ⟨(first :: g) :: gs, ?_, ?_, ?_⟩
      · simp [← hr, hcol]
      · intro x hx
        rcases List.mem_cons.1 hx with rfl | hx
        · exact List.cons_ne_nil first g
        · exact hne x hx
      · unfold BaseDocumentChunks.merge_pass
        rw [hcol]
        simpa using heq

/-! ## Merge-pass idempotence (C6) -/

/-- The merge condition of `merge_pass`: FORWARD adjacency and a combined
length within the ceiling. -/
def shouldMerge (max_length : Nat) (a b : DocumentChunk) : Prop :=
  a.eval_adjacency b = Adjacency.FORWARD ∧ a.len + b.len ≤ max_length

/-- When no consecutive pair satisfies the merge condition, `mergeLoop` is
the identity. -/
theorem mergeLoop_id (max_length : Nat) :
    ∀ (rest : List DocumentChunk) (current : DocumentChunk),
      List.Chain' (fun a b => ¬ shouldMerge max_length a b) (current :: rest) →
      mergeLoop max_length current rest = current :: rest := by
  intro rest
  induction rest with
  | nil => intro current _; rfl
  | cons chunk rest ih =>
    intro current hchain
    rw [List.chain'_cons] at hchain
    have hcond : ¬(current.eval_adjacency chunk = Adjacency.FORWARD ∧
        current.len + chunk.len ≤ max_length) := hchain.1
    rw [mergeLoop, if_neg hcond, ih chunk hchain.2]

/-- A collapsed group is at least as long as its first chunk. -/
theorem mergeGroup_cons_len (chunk : DocumentChunk) (g : List DocumentChunk) :
    chunk.len ≤ (mergeGroup (chunk :: g)).len := by
  simp only [mergeGroup, DocumentChunk.len, List.map_cons, List.flatten_cons,
    List.map_append, List.sum_append]
  exact Nat.le_add_right _ _

/-- A collapsed group of a chunk with spans keeps that chunk's first span. -/
theorem mergeGroup_cons_startSpan (chunk : DocumentChunk) (g : List DocumentChunk)
    (h : chunk.paragraph_metadata ≠ []) :
    (mergeGroup (chunk :: g)).startSpan = chunk.startSpan := by
  simp only [mergeGroup, DocumentChunk.startSpan, List.map_cons, List.flatten_cons]
  cases hp : chunk.paragraph_metadata with
  | nil => exact absurd hp h
  | cons s ss => rfl

/-- After one merge sweep over non-empty chunks, no two consecutive output
chunks satisfy the merge condition: a flush decision is preserved because the
next group keeps its first chunk's first span and can only grow longer. -/
theorem mergeLoop_chain (max_length : Nat) :
    ∀ (rest : List DocumentChunk) (current : DocumentChunk),
      current.paragraph_metadata ≠ [] →
      (∀ ch ∈ rest, ch.paragraph_metadata ≠ []) →
      List.Chain' (fun a b => ¬ shouldMerge max_length a b)
        (mergeLoop max_length current rest) := by
  intro rest
  induction rest with
  | nil => intro current _ _; simp [mergeLoop]
  | cons chunk rest ih =>
    intro current hcur hrest
    by_cases hcond : current.eval_adjacency chunk = Adjacency.FORWARD ∧
        current.len + chunk.len ≤ max_length
    · rw [mergeLoop, if_pos hcond]
      refine ih _ ?_ (fun ch hch => hrest ch (List.mem_cons_of_mem _ hch))
      intro hnil
      have hnil2 : current.paragraph_metadata ++ chunk.paragraph_metadata = [] := hnil
      rw [List.append_eq_nil] at hnil2
      exact hcur hnil2.1
    · rw [mergeLoop, if_neg hcond]
      have hchunk := hrest chunk (List.mem_cons_self _ _)
      have hchain := ih chunk hchunk (fun ch hch => hrest ch (List.mem_cons_of_mem _ hch))
      obtain ⟨g, gs, hr, hne, heq⟩ := mergeLoop_groups max_length rest chunk
      rw [heq] at hchain ⊢
      rw [List.chain'_cons]
      refine ⟨?_, hchain⟩
      intro hsm
      obtain ⟨hadj, hlen⟩ := hsm
      apply hcond
      constructor
      · simp only [DocumentChunk.eval_adjacency] at hadj ⊢
        rwa [mergeGroup_cons_startSpan chunk g hchunk] at hadj
      · have := mergeGroup_cons_len chunk g
        omega

/-- A collection in which no consecutive pair satisfies the merge condition
is a fixed point of `merge_pass`. -/
theorem merge_pass_of_chain (c : BaseDocumentChunks) (max_length : Nat)
    (h : List.Chain' (fun a b => ¬ shouldMerge max_length a b) c.collection) :
    c.merge_pass max_length = c := by
  rcases hcol : c.collection with _ | ⟨x, xs⟩
  · unfold BaseDocumentChunks.merge_pass
    rw [hcol]
  · rcases xs with _ | ⟨y, ys⟩
    · unfold BaseDocumentChunks.merge_pass
      rw [hcol]
    · unfold BaseDocumentChunks.merge_pass
      rw [hcol]
      rw [hcol] at h
      show { file_path := c.file_path, collection := mergeLoop max_length x (y :: ys) } = c
      rw [mergeLoop_id max_length (y :: ys) x h]
      rcases c with ⟨fp, col⟩
      simp only at hcol
      rw [hcol]

/-- C6: for collections of chunks that each contain at least one span (the
data model's chunk invariant), `merge_pass` is idempotent: running it twice
equals running it once. -/
theorem C6_merge_idempotent (c : BaseDocumentChunks) (max_length : Nat)
    (hmax : 0 < max_length)
    (hne : ∀ ch ∈ c.collection, ch.paragraph_metadata ≠ []) :
    (c.merge_pass max_length).merge_pass max_length = c.merge_pass max_length := by
  apply merge_pass_of_chain
  rcases hcol : c.collection with _ | ⟨first, rest⟩
  · unfold BaseDocumentChunks.merge_pass
    rw [hcol]
    simp [hcol]
  · rcases rest with _ | ⟨second, rest2⟩
    · unfold BaseDocumentChunks.merge_pass
      rw [hcol]
      simp [hcol]
    · unfold BaseDocumentChunks.merge_pass
      rw [hcol]
      exact mergeLoop_chain max_length (second :: rest2)
        first (hne first (by rw [hcol]; exact List.mem_cons_self _ _))
        (fun ch hch => hne ch (by rw [hcol]; exact List.mem_cons_of_mem _ hch))

/-- C6 counterexample to the unrestricted claim: with a span-less chunk (which
pydantic accepts, violating the data-model invariant) between two others,
the empty chunk's `start`/`end` fall back to the default span, one pass can
absorb a following chunk into the empty one, and a second pass merges
further: `merge_pass` applied twice differs from once. -/
theorem C6_counterexample :
    ((⟨none, [⟨[⟨0, 2, [], (0, 2)⟩], TranslationState.UNTRANSLATED, []⟩,
        ⟨[], TranslationState.UNTRANSLATED, []⟩,
        ⟨[⟨1, 1, [], (0, 1)⟩], TranslationState.UNTRANSLATED, []⟩]⟩ :
      BaseDocumentChunks).merge_pass 16).merge_pass 16 ≠
    (⟨none, [⟨[⟨0, 2, [], (0, 2)⟩], TranslationState.UNTRANSLATED, []⟩,
        ⟨[], TranslationState.UNTRANSLATED, []⟩,
        ⟨[⟨1, 1, [], (0, 1)⟩], TranslationState.UNTRANSLATED, []⟩]⟩ :
      BaseDocumentChunks).merge_pass 16 := by decide

/-- C6 witness: idempotence at a concrete two-paragraph collection. -/
theorem C6_merge_idempotent_witness :
    ((BaseDocumentChunks.from_paragraphs ["ab".toList, "c".toList]).merge_pass 16).merge_pass 16 =
    (BaseDocumentChunks.from_paragraphs ["ab".toList, "c".toList]).merge_pass 16 :=
  C6_merge_idempotent (BaseDocumentChunks.from_paragraphs ["ab".toList, "c".toList]) 16
    (by decide) (by decide)

/-! ## Sentence-split scenario (C7) -/

/-- The scenario paragraph of C7. -/
def c7text : List Char := "Hello, world. This is a test sentence.".toList

/-- C7: ingesting the single paragraph and running `split_pass` with ceiling
16 and the sentence-boundary rule (policy `INCLUDE_LEFT`) produces exactly two
chunks rendering `"Hello, world."` and `"This is a test sentence."`, the
second carrying the max-length warning and the first warning-free. -/
theorem C7_sentence_split_scenario :
    sentenceSplitRule.behavior = SplitBehavior.INCLUDE_LEFT ∧
    (BaseDocumentChunks.from_paragraphs [c7text]).split_pass 10 (fun _ => c7text) 16
      [sentenceSplitRule] =
      Except.ok ⟨none,
        [⟨[⟨0, 38, [], (0, 13)⟩], TranslationState.UNTRANSLATED, []⟩,
         ⟨[⟨0, 38, [], (14, 38)⟩], TranslationState.UNTRANSLATED,
           ["Max length (16) exceeded"]⟩]⟩ ∧
    DocumentChunk.to_text ⟨[⟨0, 38, [], (0, 13)⟩], TranslationState.UNTRANSLATED, []⟩
      (fun _ => c7text) = "Hello, world.".toList ∧
    DocumentChunk.to_text ⟨[⟨0, 38, [], (14, 38)⟩], TranslationState.UNTRANSLATED,
        ["Max length (16) exceeded"]⟩ (fun _ => c7text) =
      "This is a test sentence.".toList :=
  ⟨rfl, rfl, rfl, rfl⟩

end LCPair
